import Mathlib

/-!
Verification development for the stock-analyzer historical-data updater
(`updater.py`) and the prediction post-processing engine
(`stock-analyzer-backend/prediction_api.py`).

Conventions of the shallow embedding:
* Calendar dates are modelled as integers (`ℤ`): the code stores dates as
  `YYYY-MM-DD` strings, whose lexicographic order coincides with the
  chronological order of the integer day number.
* Finite floats are modelled as rationals (`ℚ`).
* A pandas cell is modelled by the record `Cell`, which carries the results
  of the library calls the code applies to the raw value
  (`pd.to_datetime` strict / lenient, `pd.to_numeric`, `str(...).strip()`),
  since those library parsers are outside the repository.
* String helpers (`lowerStr`, `upperStr`, `strContains`, ...) re-implement
  the Python `str` methods used by the code over `Char` lists, so that
  every definition evaluates inside the kernel.
-/

/-- ASCII lower-casing of one character (Python `str.lower` restricted to the
ASCII range used by the code's column names). -/
def asciiLower (c : Char) : Char :=
  if 'A' ≤ c ∧ c ≤ 'Z' then Char.ofNat (c.toNat + 32) else c

/-- ASCII upper-casing of one character (Python `str.upper`). -/
def asciiUpper (c : Char) : Char :=
  if 'a' ≤ c ∧ c ≤ 'z' then Char.ofNat (c.toNat - 32) else c

/-- Python `s.lower()`. -/
def lowerStr (s : String) : String := String.mk (s.data.map asciiLower)

/-- Python `s.upper()`. -/
def upperStr (s : String) : String := String.mk (s.data.map asciiUpper)

/-- Does the first list occur at the head of the second list? -/
def leadsWith : List Char → List Char → Bool
  | [], _ => true
  | _ :: _, [] => false
  | a :: as, b :: bs => a == b && leadsWith as bs

/-- Python `needle in hay` on strings (substring containment). -/
def strContains (hay needle : String) : Bool :=
  (List.range (hay.data.length + 1)).any (fun i => leadsWith needle.data (hay.data.drop i))

/-- One pandas cell, as seen through the library calls `updater.py` applies
to it: `isNA` is `pd.isna(val)`; `text` is `str(val).strip()`; `dateStrict`
is `pd.to_datetime(val, format="%Y-%m-%d", errors="coerce")` (`none` = `NaT`);
`dateLenient` is `pd.to_datetime(val, errors="coerce", dayfirst=False)`;
`numeric` is `pd.to_numeric(val, errors="coerce")` (`none` = `NaN`). -/
structure Cell where
  isNA : Bool
  text : String
  dateStrict : Option ℤ
  dateLenient : Option ℤ
  numeric : Option ℚ
deriving DecidableEq, Repr

/-- Placeholder cell used for out-of-range positional access (a pandas row
always has one cell per column, so this default is never reached on
well-formed tables). -/
def defaultCell : Cell := ⟨true, "", none, none, none⟩

/-- A raw table as produced by `read_csv_flexible`: flattened column names
plus rows of cells (one cell per column, in column order). -/
structure RawTable where
  cols : List String
  rows : List (List Cell)
deriving DecidableEq, Repr

/-- Look up a cell by column name (pandas `row.get(c)`; `none` when the
label is absent, i.e. `c in row.index` is false). -/
def getCell (cols : List String) (row : List Cell) (c : String) : Option Cell :=
  (cols.findIdx? (fun x => x == c)).map (fun i => row.getD i defaultCell)

/-- `row_has_valid_date` (updater.py lines 135-157): true when any candidate
column holds a non-NA value that parses as a date, or — fallback — when the
first cell of the row parses as a date. -/
def row_has_valid_date (cols : List String) (cands : List String) (row : List Cell) : Bool :=
  (cands.any (fun c =>
    match getCell cols row c with
    | none => false
    | some cell => !cell.isNA && cell.dateLenient.isSome))
  || (match row.head? with
      | none => false
      | some cell => cell.dateLenient.isSome)

/-- Date-candidate columns (updater.py lines 172-174): every column whose
lower-cased name contains "date"; if none and the table has at least one
column, the first column. -/
def dateCandidates (cols : List String) : List String :=
  let ds := cols.filter (fun c => strContains (lowerStr c) "date")
  if ds.isEmpty && !cols.isEmpty then [cols.headD ""] else ds

/-- The header-likeness test for one non-date cell (updater.py line 194):
the cell text equals its column name, or contains the ticker hint, or is an
uppercase alphanumeric/._- token of length > 1. -/
def cellMatches (c : String) (hint : Option String) (s : String) : Bool :=
  s == c
  || (match hint with
      | some h => strContains s h
      | none => false)
  || (upperStr s == s && s.data.length > 1
        && s.data.all (fun ch => ch.isAlphanum || ch == '.' || ch == '-'))

/-- Count of non-empty cells and of header-matching cells over the columns
of one row, skipping the column literally named "date" (updater.py
lines 183-195). -/
def headerStats (cols : List String) (hint : Option String) (row : List Cell) : ℕ × ℕ :=
  cols.foldl (fun acc c =>
    if lowerStr c == "date" then acc
    else
      match getCell cols row c with
      | none => acc
      | some cell =>
        if cell.isNA || cell.text == "" then acc
        else (acc.1 + 1, if cellMatches c hint cell.text then acc.2 + 1 else acc.2)) (0, 0)

/-- Is a row flagged as a spurious embedded header (updater.py
lines 178-197)?  A row with a valid date is never flagged; otherwise the
row is flagged when at least half of its non-empty non-date cells look
header-like. -/
def is_header_like (cols : List String) (hint : Option String) (cands : List String)
    (row : List Cell) : Bool :=
  if row_has_valid_date cols cands row then false
  else
    let st := headerStats cols hint row
    decide (0 < st.1) && decide (max 1 (st.1 / 2) ≤ st.2)

/-- The header-contamination guard (updater.py lines 177-199): flag rows among
the first 6 and drop them.  Dropping by index label on the fresh RangeIndex is
the same as filtering the first six rows by the flag. -/
def drop_header_like (cols : List String) (hint : Option String)
    (rows : List (List Cell)) : List (List Cell) :=
  let cands := dateCandidates cols
  (rows.take 6).filter (fun r => !is_header_like cols hint cands r) ++ rows.drop 6

/-- One canonical bar in the 7-column schema `Date,Open,High,Low,Close,Volume,Stock`
(numeric fields are `none` when coercion produced `NaN`/`pd.NA`). -/
structure Bar where
  date : ℤ
  opn : Option ℚ
  hi : Option ℚ
  lo : Option ℚ
  close : Option ℚ
  volume : Option ℚ
  stock : String
deriving DecidableEq, Repr

/-- `pd.to_datetime` applied to a column that is already of datetime64 dtype
(updater.py line 211 re-parses the column that line 209 just overwrote with
the strict-parse result): `NaT` maps to `NaT` and timestamps to themselves,
so it is the identity. -/
def reparse_datetime (xs : List (Option ℤ)) : List (Option ℤ) := xs

/-- `df.drop_duplicates(subset=["Date"], keep="last")`: keep a row only when
no later row has the same date, preserving the order of the survivors. -/
def dedupKeepLast : List Bar → List Bar
  | [] => []
  | b :: bs =>
    if bs.any (fun c => c.date == b.date) then dedupKeepLast bs
    else b :: dedupKeepLast bs

/-- `df.sort_values("Date")` on canonical date strings: a sort by the date key
(the code sorts `YYYY-MM-DD` strings or datetimes, both ordered like `ℤ`). -/
def sortByDate (l : List Bar) : List Bar :=
  List.insertionSort (fun a b => a.date ≤ b.date) l

/-- The fold of updater.py lines 217-227: each missing expected column is
located by case-insensitive substring containment and renamed to the target
(renaming keeps the column position). -/
def mapTargets (cols : List String) : List String :=
  ["Open", "High", "Low", "Close", "Volume", "Stock"].foldl (fun cs t =>
    if cs.contains t then cs
    else
      match cs.find? (fun c => strContains (lowerStr c) (lowerStr t)) with
      | some c => cs.replace c t
      | none => cs) cols

/-- Numeric value of a row under a target column after the column mapping:
an absent column was created as a null column (updater.py line 227), and a
present one is coerced with `pd.to_numeric(..., errors="coerce")`. -/
def numAt (cols : List String) (row : List Cell) (t : String) : Option ℚ :=
  match getCell cols row t with
  | none => none
  | some cell => cell.numeric

/-- Stock value of a row: `str(val)` with `"nan"` replaced by the empty
string (updater.py line 237); a column created from `pd.NA` stringifies to
`"<NA>"`, which the `replace("nan", "")` does not touch. -/
def stockAt (cols : List String) (row : List Cell) : String :=
  match getCell cols row "Stock" with
  | none => "<NA>"
  | some cell => if cell.isNA then "" else cell.text

/-- `normalize_existing_df` (updater.py lines 159-244) over the cell model:
header-contamination guard, Date-column establishment, strict-then-fallback
date parsing (the fallback re-parses the already-coerced column), dropping
undated rows, column mapping, numeric coercion, stock fill, and the final
dedupe-by-date (keep last) plus ascending sort.  Returns `none` exactly when
the code returns `None`. -/
def normalize_existing_df (t : RawTable) (hint : Option String) : Option (List Bar) :=
  if t.rows.isEmpty then none
  else
    let cols := t.cols
    let rows1 := drop_header_like cols hint t.rows
    let dateIdx? : Option ℕ :=
      if cols.contains "Date" then cols.findIdx? (fun x => x == "Date")
      else if cols.isEmpty then none else some 0
    match dateIdx? with
    | none => none
    | some di =>
      let cols1 := if cols.contains "Date" then cols else cols.set 0 "Date"
      let strict : List (Option ℤ) := rows1.map (fun r => (r.getD di defaultCell).dateStrict)
      let parsed := if strict.all (fun d => d.isNone) then reparse_datetime strict else strict
      let kept : List (List Cell × ℤ) :=
        (rows1.zip parsed).filterMap (fun p => p.2.map (fun d => (p.1, d)))
      if kept.isEmpty then none
      else
        let cols2 := mapTargets cols1
        let bars0 : List Bar := kept.map (fun p =>
          { date := p.2
            opn := numAt cols2 p.1 "Open"
            hi := numAt cols2 p.1 "High"
            lo := numAt cols2 p.1 "Low"
            close := numAt cols2 p.1 "Close"
            volume := numAt cols2 p.1 "Volume"
            stock := stockAt cols2 p.1 })
        let bars1 :=
          if bars0.all (fun b => b.stock == "") then
            match hint with
            | some h => bars0.map (fun b => { b with stock := h })
            | none => bars0
          else bars0
        some (sortByDate (dedupKeepLast bars1))

/-- The merge step of `update_historical_data` (updater.py lines 460-484):
given the normalized existing series (or `none` when the file was unreadable
or empty) and the freshly fetched canonical rows, return the series written
back to disk together with the reported merged count.  Dates already known
are never overwritten; only genuinely new dates are appended, then the
combination is deduplicated (keep last) and re-sorted. -/
def mergeSeries (existing : Option (List Bar)) (fetched : List Bar) : List Bar × ℕ :=
  let existingDates : List ℤ := (existing.getD []).map (fun b => b.date)
  let newDates : List ℤ :=
    ((fetched.map (fun b => b.date)).filter (fun d => !existingDates.contains d)).dedup
  let mergedCount := newDates.length
  match existing with
  | none => (dedupKeepLast fetched, mergedCount)
  | some ex =>
    if mergedCount = 0 then (ex, 0)
    else
      let toAppend := fetched.filter (fun b => newDates.contains b.date)
      (sortByDate (dedupKeepLast (ex ++ toAppend)), mergedCount)

/-- One row of a forecast DataFrame (`['Open','High','Low','Close']` with a
datetime index), dates again as integers. -/
structure PredRow where
  date : ℤ
  opn : ℚ
  hi : ℚ
  lo : ℚ
  close : ℚ
deriving DecidableEq, Repr

/-- Placeholder forecast row for out-of-range positional access. -/
def defaultPredRow : PredRow := ⟨0, 0, 0, 0, 0⟩

/-- Pandas/NumPy `clip(lower, upper)` for `lower ≤ upper`. -/
def clip (lo hi x : ℚ) : ℚ := min (max x lo) hi

/-- The floor `min_allowed = max(0.01, last_close * min_frac)`
(prediction_api.py line 501). -/
def bandFloor (lastClose minFrac : ℚ) : ℚ := max (1/100) (lastClose * minFrac)

/-- `lower_bound = max(min_allowed, lower_by_pct, lower_by_abs)`
(prediction_api.py lines 503-509). -/
def bandLower (lastClose maxPct absLimit minFrac : ℚ) : ℚ :=
  max (bandFloor lastClose minFrac) (max (lastClose * (1 - maxPct)) (lastClose - absLimit))

/-- `upper_bound = min(upper_by_pct, upper_by_abs)` before the degenerate-band
guard (prediction_api.py line 510). -/
def bandUpperRaw (lastClose maxPct absLimit : ℚ) : ℚ :=
  min (lastClose * (1 + maxPct)) (lastClose + absLimit)

/-- The upper band limit after the degenerate-band widening guard
(prediction_api.py lines 512-513). -/
def bandUpper (lastClose maxPct absLimit minFrac : ℚ) : ℚ :=
  let lb := bandLower lastClose maxPct absLimit minFrac
  let ub := bandUpperRaw lastClose maxPct absLimit
  if ub ≤ lb then lb + max (1/100) (lastClose * (1/100)) else ub

/-- One step of a linear congruential generator; stands in for NumPy's PCG64
state transition.  Only two facts about the generator matter to the code and
are preserved here: the stream is a pure function of the seed, and each draw
lies in the half-open unit interval. -/
def lcgNext (s : ℕ) : ℕ := (1103515245 * s + 12345) % 2147483648

/-- The n-th raw state of the seeded generator `np.random.default_rng(seed)`. -/
def lcgState (seed : ℕ) : ℕ → ℕ
  | 0 => lcgNext seed
  | n + 1 => lcgNext (lcgState seed n)

/-- The n-th draw of the seeded generator, scaled to `[0, 1)`. -/
def unitDraw (seed n : ℕ) : ℚ := (lcgState seed n : ℚ) / 2147483648

/-- `rng.uniform(lo, hi, ...)`: the n-th draw scaled to `[lo, hi)`. -/
def uniformDraw (seed : ℕ) (lo hi : ℚ) (n : ℕ) : ℚ :=
  lo + (hi - lo) * unitDraw seed n

/-- `Series.rolling(window=w, min_periods=1).mean()`: the trailing mean of the
last `min(w, i+1)` values at each position `i`. -/
def rollingMean (w : ℕ) (xs : List ℚ) : List ℚ :=
  (List.range xs.length).map (fun i =>
    let k := min w (i + 1)
    (((List.range k).map (fun j => xs.getD (i - j) 0)).sum) / (k : ℚ))

/-- The finalized Close trajectory of `postprocess_prediction_df`
(prediction_api.py lines 519-524): clip into the band, optionally smooth with
a trailing moving average, re-clip, then re-floor at `min_allowed`. -/
def finalClose (lastClose maxPct absLimit minFrac : ℚ) (smoothWindow : ℕ)
    (closes : List ℚ) : List ℚ :=
  let lb := bandLower lastClose maxPct absLimit minFrac
  let ub := bandUpper lastClose maxPct absLimit minFrac
  let c1 := closes.map (clip lb ub)
  let c2 := if 1 < smoothWindow then rollingMean (min smoothWindow closes.length) c1 else c1
  let c3 := c2.map (clip lb ub)
  c3.map (fun x => max x (bandFloor lastClose minFrac))

/-- The row-rebuilding core of `postprocess_prediction_df` (prediction_api.py
lines 515-542) on a non-empty forecast: synthesize High/Low/Open around the
finalized Close with seeded uniform draws (High offsets are draws `0..n-1`,
Low offsets draws `n..2n-1`, Open offsets draws `2n..3n-1`, matching the three
successive `rng.uniform` calls), clip them into the band, enforce the OHLC
ordering (`High = max(High,Open,Close)`, `Low = min(Low,Open,Close)`), and
finally clip all four fields into `[min_allowed, upper_bound]`.  The dates of
the input rows are kept unchanged. -/
def postprocessCore (lastClose maxPct absLimit minFrac : ℚ) (smoothWindow : ℕ)
    (vol : ℚ) (seed : ℕ) (pred : List PredRow) : List PredRow :=
  let m := bandFloor lastClose minFrac
  let lb := bandLower lastClose maxPct absLimit minFrac
  let ub := bandUpper lastClose maxPct absLimit minFrac
  let c4 := finalClose lastClose maxPct absLimit minFrac smoothWindow (pred.map (fun r => r.close))
  let n := pred.length
  (List.range n).map (fun i =>
    let c := c4.getD i 0
    let h0 := min (c * (1 + uniformDraw seed (vol / 2) vol i)) ub
    let l0 := max (c * (1 - uniformDraw seed (vol / 2) vol (n + i))) lb
    let prev := if i = 0 then lastClose else c4.getD (i - 1) 0
    let o0 := clip lb ub (prev * (1 + uniformDraw seed (-(vol / 2)) (vol / 2) (2 * n + i)))
    let h1 := max (max h0 o0) c
    let l1 := min (min l0 o0) c
    { date := (pred.getD i defaultPredRow).date
      opn := clip m ub o0
      hi := clip m ub h1
      lo := clip m ub l1
      close := clip m ub c })

/-- `postprocess_prediction_df` (prediction_api.py lines 480-542).  `ambient`
models the process-wide NumPy random state that is in scope when the function
runs; the body constructs its own generator from the explicit `seed` argument
and never reads the ambient state.  `histClose` is the `Close` column of
`historical_df`; `last_close = float(historical_df['Close'].iloc[-1])` raises
on an empty series, modelled by the `Except.error` branch.  A `None` or empty
forecast is returned as-is.  Source defaults: `maxPct = 1/5`, `absLimit = 50`,
`minFrac = 1/100`, `smoothWindow = 3`, `vol = 1/50`, `seed = 42`. -/
def postprocess_prediction_df (ambient : ℕ → ℚ) (pred : Option (List PredRow))
    (histClose : List ℚ) (maxPct absLimit minFrac : ℚ) (smoothWindow : ℕ)
    (vol : ℚ) (seed : ℕ) : Except String (Option (List PredRow)) :=
  match pred with
  | none => Except.ok none
  | some rows =>
    if rows.isEmpty then Except.ok (some rows)
    else
      match histClose.getLast? with
      | none => Except.error "single positional indexer is out-of-bounds"
      | some lastClose =>
        Except.ok (some (postprocessCore lastClose maxPct absLimit minFrac smoothWindow vol seed rows))

/-- Forecast cadence selected by the `time_range` query parameter of
`/api/prediction/analyze`. -/
inductive TimeRange
  | days
  | hours
  | minutes
deriving DecidableEq, Repr

/-- The two forecast model backends fed into the reconciler. -/
inductive ForecastModel
  | prophet
  | lgbm
deriving DecidableEq, Repr

/-- The band parameters of one `postprocess_prediction_df` call site. -/
structure BandParams where
  maxPct : ℚ
  absLimit : ℚ
  minFrac : ℚ
  smoothWindow : ℕ
deriving DecidableEq, Repr

/-- The band parameters `api_prediction_analyze` passes to
`postprocess_prediction_df` for each cadence and model (prediction_api.py
lines 583-587, 596-600, 609-613, 628-632, 640-644, 658-662, 670-674; for
daily LightGBM these are the parameters of the non-preprocessed path, the
only daily path that post-processes the LightGBM forecast). -/
def callSiteBandParams : TimeRange → ForecastModel → BandParams
  | TimeRange.days, ForecastModel.lgbm => ⟨35/100, 100, 1/100, 1⟩
  | TimeRange.days, ForecastModel.prophet => ⟨35/100, 100, 1/100, 3⟩
  | TimeRange.hours, ForecastModel.prophet => ⟨10/100, 20, 5/10, 3⟩
  | TimeRange.hours, ForecastModel.lgbm => ⟨35/100, 50, 1/100, 1⟩
  | TimeRange.minutes, ForecastModel.prophet => ⟨10/100, 20, 5/10, 3⟩
  | TimeRange.minutes, ForecastModel.lgbm => ⟨35/100, 50, 1/100, 1⟩

/-- Reconciliation as invoked at a call site: the same `postprocess_prediction_df`
core for every model, parameterized only by the call-site band parameters
(`volatility_for_ohlc` and `rng_seed` are left at their defaults `0.02` and
`42` by every call site). -/
def reconcileAtCallSite (tr : TimeRange) (mo : ForecastModel) (lastClose : ℚ)
    (pred : List PredRow) : List PredRow :=
  let p := callSiteBandParams tr mo
  postprocessCore lastClose p.maxPct p.absLimit p.minFrac p.smoothWindow (1/50) 42 pred

theorem bandFloor_le_bandLower (lc mp al mf : ℚ) :
    bandFloor lc mf ≤ bandLower lc mp al mf :=
  le_max_left _ _

theorem bandLower_lt_bandUpper (lc mp al mf : ℚ) :
    bandLower lc mp al mf < bandUpper lc mp al mf := by
  unfold bandUpper
  simp only []
  split
  · have h : (0 : ℚ) < max (1/100) (lc * (1/100)) :=
      lt_of_lt_of_le (by norm_num) (le_max_left _ _)
    linarith
  · exact lt_of_not_le (by assumption)

theorem clip_le_hi (lo hi x : ℚ) : clip lo hi x ≤ hi := min_le_right _ _

theorem lo_le_clip (lo hi x : ℚ) (h : lo ≤ hi) : lo ≤ clip lo hi x :=
  le_min (le_max_right _ _) h

theorem clip_eq_self (lo hi x : ℚ) (h1 : lo ≤ x) (h2 : x ≤ hi) : clip lo hi x = x := by
  unfold clip
  rw [max_eq_left h1, min_eq_left h2]

theorem rollingMean_length (w : ℕ) (xs : List ℚ) : (rollingMean w xs).length = xs.length := by
  simp [rollingMean]

theorem finalClose_length (lc mp al mf : ℚ) (sw : ℕ) (closes : List ℚ) :
    (finalClose lc mp al mf sw closes).length = closes.length := by
  unfold finalClose
  split <;> simp [rollingMean_length]

theorem finalClose_mem_bounds (lc mp al mf : ℚ) (sw : ℕ) (closes : List ℚ) :
    ∀ x ∈ finalClose lc mp al mf sw closes,
      bandLower lc mp al mf ≤ x ∧ x ≤ bandUpper lc mp al mf := by
  intro x hx
  have hle : bandLower lc mp al mf ≤ bandUpper lc mp al mf :=
    le_of_lt (bandLower_lt_bandUpper lc mp al mf)
  have hm : bandFloor lc mf ≤ bandLower lc mp al mf := bandFloor_le_bandLower lc mp al mf
  unfold finalClose at hx
  rcases List.mem_map.mp hx with ⟨y, hy, rfl⟩
  rcases List.mem_map.mp hy with ⟨z, _, rfl⟩
  constructor
  · exact le_trans (lo_le_clip _ _ _ hle) (le_max_left _ _)
  · exact max_le (clip_le_hi _ _ _) (le_trans hm hle)

theorem reconRowChain (M LB UB C a b p : ℚ)
    (hMLB : M ≤ LB) (hLBUB : LB ≤ UB) (hC1 : LB ≤ C) (hC2 : C ≤ UB) :
    M ≤ clip M UB (min (min (max b LB) (clip LB UB p)) C) ∧
    clip M UB (min (min (max b LB) (clip LB UB p)) C) ≤
      min (clip M UB (clip LB UB p)) (clip M UB C) ∧
    min (clip M UB (clip LB UB p)) (clip M UB C) ≤
      max (clip M UB (clip LB UB p)) (clip M UB C) ∧
    max (clip M UB (clip LB UB p)) (clip M UB C) ≤
      clip M UB (max (max (min a UB) (clip LB UB p)) C) ∧
    clip M UB (max (max (min a UB) (clip LB UB p)) C) ≤ UB := by
  set O0 := clip LB UB p with hO0def
  have hO0l : LB ≤ O0 := lo_le_clip _ _ _ hLBUB
  have hO0u : O0 ≤ UB := clip_le_hi _ _ _
  set H0 := min a UB with hH0def
  set L0 := max b LB with hL0def
  have hH0u : H0 ≤ UB := min_le_right _ _
  have hL0l : LB ≤ L0 := le_max_right _ _
  set H1 := max (max H0 O0) C with hH1def
  set L1 := min (min L0 O0) C with hL1def
  have hH1u : H1 ≤ UB := max_le (max_le hH0u hO0u) hC2
  have hL1l : LB ≤ L1 := le_min (le_min hL0l hO0l) hC1
  have hL1C : L1 ≤ C := min_le_right _ _
  have hL1O0 : L1 ≤ O0 := le_trans (min_le_left _ _) (min_le_right _ _)
  have hCH1 : C ≤ H1 := le_max_right _ _
  have hO0H1 : O0 ≤ H1 := le_trans (le_max_right _ _) (le_max_left _ _)
  rw [clip_eq_self M UB O0 (le_trans hMLB hO0l) hO0u,
      clip_eq_self M UB C (le_trans hMLB hC1) hC2,
      clip_eq_self M UB H1 (le_trans (le_trans hMLB hC1) hCH1) hH1u,
      clip_eq_self M UB L1 (le_trans hMLB hL1l) (le_trans hL1C hC2)]
  exact ⟨le_trans hMLB hL1l, le_min hL1O0 hL1C, min_le_max,
    max_le hO0H1 hCH1, hH1u⟩

set_option maxHeartbeats 1000000 in
/-- C1: for every non-empty raw forecast with a Close column and every
historical series whose last Close is a finite number, every row of the
output of `postprocess_prediction_df` satisfies
`floor ≤ Low ≤ min(Open, Close) ≤ max(Open, Close) ≤ High ≤ upper_bound`,
with `floor = max(0.01, last_close * min_frac)` and `upper_bound` the
(possibly widened) upper band limit. -/
theorem postprocess_bounding_invariant
    (lc mp al mf : ℚ) (sw : ℕ) (vol : ℚ) (seed : ℕ) (pred : List PredRow)
    (hne : pred ≠ []) :
    ∀ r ∈ postprocessCore lc mp al mf sw vol seed pred,
      bandFloor lc mf ≤ r.lo ∧ r.lo ≤ min r.opn r.close ∧
      min r.opn r.close ≤ max r.opn r.close ∧
      max r.opn r.close ≤ r.hi ∧ r.hi ≤ bandUpper lc mp al mf := by
  intro r hr
  unfold postprocessCore at hr
  simp only [List.mem_map, List.mem_range] at hr
  obtain ⟨i, hin, rfl⟩ := hr
  simp only []
  have hlen : i < (finalClose lc mp al mf sw (List.map (fun r => r.close) pred)).length := by
    rw [finalClose_length]
    simpa using hin
  have hmem : (finalClose lc mp al mf sw (List.map (fun r => r.close) pred)).getD i 0 ∈
      finalClose lc mp al mf sw (List.map (fun r => r.close) pred) := by
    rw [List.getD_eq_getElem _ _ hlen]
    exact List.getElem_mem hlen
  have hC := finalClose_mem_bounds lc mp al mf sw (List.map (fun r => r.close) pred) _ hmem
  exact reconRowChain _ _ _ _ _ _ _ (bandFloor_le_bandLower lc mp al mf)
    (le_of_lt (bandLower_lt_bandUpper lc mp al mf)) hC.1 hC.2

theorem postprocessCore_length (lc mp al mf : ℚ) (sw : ℕ) (vol : ℚ) (seed : ℕ)
    (pred : List PredRow) :
    (postprocessCore lc mp al mf sw vol seed pred).length = pred.length := by
  unfold postprocessCore
  simp

theorem postprocess_bounding_invariant_witness :
    bandFloor 100 (1/100) ≤
      ((postprocessCore 100 (1/5) 50 (1/100) 3 (1/50) 42
        [⟨1, 100, 100, 100, 100⟩]).getD 0 defaultPredRow).lo := by
  have hlen : 0 < (postprocessCore 100 (1/5) 50 (1/100) 3 (1/50) 42
      [(⟨1, 100, 100, 100, 100⟩ : PredRow)]).length := by
    rw [postprocessCore_length]
    decide
  have h := postprocess_bounding_invariant 100 (1/5) 50 (1/100) 3 (1/50) 42
    [⟨1, 100, 100, 100, 100⟩] (by simp)
  refine (h _ ?_).1
  rw [List.getD_eq_getElem _ _ hlen]
  exact List.getElem_mem hlen

/-- C5: after the bounding-band computation including the widening rule,
`upper_bound` is strictly greater than `lower_bound` for every
`last_close ≥ 0` and parameter setting; in particular at
`last_close = 0, abs_limit = 100, max_pct = 0.35, min_frac = 0.01` the raw
band is degenerate (so the widening rule activates) and the widened band is
not degenerate. -/
theorem band_widening_guard :
    (∀ lc mp al mf : ℚ, 0 ≤ lc → bandLower lc mp al mf < bandUpper lc mp al mf) ∧
    bandUpperRaw 0 (35/100) 100 ≤ bandLower 0 (35/100) 100 (1/100) ∧
    bandLower 0 (35/100) 100 (1/100) < bandUpper 0 (35/100) 100 (1/100) := by
  refine ⟨fun lc mp al mf _ => bandLower_lt_bandUpper lc mp al mf, ?_, ?_⟩
  · have h1 : bandUpperRaw 0 (35/100) 100 = 0 := by
      unfold bandUpperRaw
      norm_num
    have h2 : (1/100 : ℚ) ≤ bandLower 0 (35/100) 100 (1/100) := by
      unfold bandLower bandFloor
      simp
    rw [h1]
    linarith
  · exact bandLower_lt_bandUpper 0 (35/100) 100 (1/100)

theorem band_widening_guard_witness :
    bandLower 1 (1/5) 50 (1/100) < bandUpper 1 (1/5) 50 (1/100) :=
  band_widening_guard.1 1 (1/5) 50 (1/100) (by norm_num)

/-- C9: reconciliation is deterministic — the output of
`postprocess_prediction_df` is a function of its explicit inputs only
(forecast, historical anchor, band parameters and seed) and is independent of
the ambient process-wide random state, because the generator is constructed
from the explicit `rng_seed` parameter. -/
theorem postprocess_ambient_independent
    (g1 g2 : ℕ → ℚ) (pred : Option (List PredRow)) (histClose : List ℚ)
    (mp al mf : ℚ) (sw : ℕ) (vol : ℚ) (seed : ℕ) :
    postprocess_prediction_df g1 pred histClose mp al mf sw vol seed =
      postprocess_prediction_df g2 pred histClose mp al mf sw vol seed := rfl

theorem postprocessCore_dates (lc mp al mf : ℚ) (sw : ℕ) (vol : ℚ) (seed : ℕ)
    (pred : List PredRow) :
    (postprocessCore lc mp al mf sw vol seed pred).map (fun r => r.date) =
      pred.map (fun r => r.date) := by
  unfold postprocessCore
  refine List.ext_getElem (by simp) ?_
  intro n h1 h2
  simp only [List.getElem_map, List.getElem_range]
  have hn : n < pred.length := by simpa using h2
  rw [List.getD_eq_getElem _ _ hn]

theorem postprocess_some_eq (g : ℕ → ℚ) (histClose : List ℚ) (mp al mf : ℚ)
    (sw : ℕ) (vol : ℚ) (seed : ℕ) (a : PredRow) (l : List PredRow) (lc : ℚ)
    (hl : histClose.getLast? = some lc) :
    postprocess_prediction_df g (some (a :: l)) histClose mp al mf sw vol seed =
      Except.ok (some (postprocessCore lc mp al mf sw vol seed (a :: l))) := by
  simp [postprocess_prediction_df, hl]

/-- C10: the reconciler rewrites only the OHLC values — for a non-empty
forecast the output has exactly the input's date index (same rows, same
order, same length), and a `None` or empty input forecast is returned
as-is. -/
theorem postprocess_frame_property
    (g : ℕ → ℚ) (histClose : List ℚ) (mp al mf : ℚ) (sw : ℕ) (vol : ℚ) (seed : ℕ)
    (pred : List PredRow) (out : List PredRow)
    (h : postprocess_prediction_df g (some pred) histClose mp al mf sw vol seed =
      Except.ok (some out)) :
    postprocess_prediction_df g none histClose mp al mf sw vol seed = Except.ok none ∧
    postprocess_prediction_df g (some []) histClose mp al mf sw vol seed =
      Except.ok (some []) ∧
    out.map (fun r => r.date) = pred.map (fun r => r.date) ∧
    out.length = pred.length := by
  refine ⟨rfl, rfl, ?_⟩
  cases pred with
  | nil =>
    have hout : [] = out := by
      simpa [postprocess_prediction_df] using h
    subst hout
    exact ⟨rfl, rfl⟩
  | cons a l =>
    cases hl : histClose.getLast? with
    | none =>
      rw [postprocess_prediction_df] at h
      simp [hl] at h
    | some lc =>
      rw [postprocess_some_eq g histClose mp al mf sw vol seed a l lc hl] at h
      obtain rfl : postprocessCore lc mp al mf sw vol seed (a :: l) = out := by
        simpa using h
      refine ⟨postprocessCore_dates lc mp al mf sw vol seed (a :: l), ?_⟩
      have h2 := congrArg List.length (postprocessCore_dates lc mp al mf sw vol seed (a :: l))
      simpa using h2

theorem postprocess_frame_property_witness :
    (postprocessCore 100 (1/5) 50 (1/100) 3 (1/50) 42
        [⟨7, 1, 2, 3, 4⟩]).map (fun r => r.date) =
      [(⟨7, 1, 2, 3, 4⟩ : PredRow)].map (fun r => r.date) :=
  (postprocess_frame_property (fun _ => 0) [100] (1/5) 50 (1/100) 3 (1/50) 42
    [⟨7, 1, 2, 3, 4⟩] _
    (postprocess_some_eq (fun _ => 0) [100] (1/5) 50 (1/100) 3 (1/50) 42
      ⟨7, 1, 2, 3, 4⟩ [] 100 rfl)).2.2.1

/-- C7 counterexample: for hourly cadence the LightGBM forecast is NOT
post-processed with the tight band `max_pct = 0.10, abs_limit = 20,
min_frac = 0.5` claimed for both models — its call site passes
`max_pct = 0.35, abs_limit = 50, min_frac = 0.01`. -/
theorem call_site_band_params_not_uniform :
    (callSiteBandParams TimeRange.hours ForecastModel.lgbm).maxPct = 35/100 ∧
    (callSiteBandParams TimeRange.hours ForecastModel.lgbm).maxPct ≠ 10/100 ∧
    (callSiteBandParams TimeRange.hours ForecastModel.lgbm).absLimit = 50 ∧
    (callSiteBandParams TimeRange.hours ForecastModel.lgbm).absLimit ≠ 20 ∧
    (callSiteBandParams TimeRange.hours ForecastModel.lgbm).minFrac = 1/100 ∧
    (callSiteBandParams TimeRange.hours ForecastModel.lgbm).minFrac ≠ 5/10 := by
  refine ⟨rfl, by norm_num [callSiteBandParams], rfl,
    by norm_num [callSiteBandParams], rfl, by norm_num [callSiteBandParams]⟩

/-- C7 amended: the reconciler itself has no model-specific logic (every call
site invokes the same `postprocess_prediction_df` core), but the band
parameters at the call sites are both cadence- and model-specific: daily
forecasts use the wide band `max_pct = 0.35, abs_limit = 100, min_frac = 0.01`
for both models, while for hourly and minute cadence only the Prophet
forecast gets the tight band `max_pct = 0.10, abs_limit = 20, min_frac = 0.5`
and the LightGBM forecast gets `max_pct = 0.35, abs_limit = 50,
min_frac = 0.01`. -/
theorem call_site_band_params_by_model :
    (∀ tr mo lastClose pred,
      reconcileAtCallSite tr mo lastClose pred =
        postprocessCore lastClose (callSiteBandParams tr mo).maxPct
          (callSiteBandParams tr mo).absLimit (callSiteBandParams tr mo).minFrac
          (callSiteBandParams tr mo).smoothWindow (1/50) 42 pred) ∧
    callSiteBandParams TimeRange.days ForecastModel.prophet = ⟨35/100, 100, 1/100, 3⟩ ∧
    callSiteBandParams TimeRange.days ForecastModel.lgbm = ⟨35/100, 100, 1/100, 1⟩ ∧
    callSiteBandParams TimeRange.hours ForecastModel.prophet = ⟨10/100, 20, 5/10, 3⟩ ∧
    callSiteBandParams TimeRange.hours ForecastModel.lgbm = ⟨35/100, 50, 1/100, 1⟩ ∧
    callSiteBandParams TimeRange.minutes ForecastModel.prophet = ⟨10/100, 20, 5/10, 3⟩ ∧
    callSiteBandParams TimeRange.minutes ForecastModel.lgbm = ⟨35/100, 50, 1/100, 1⟩ :=
  ⟨fun _ _ _ _ => rfl, rfl, rfl, rfl, rfl, rfl, rfl⟩

instance : IsTotal Bar (fun a b => a.date ≤ b.date) :=
  ⟨fun a b => Int.le_total a.date b.date⟩

instance : IsTrans Bar (fun a b => a.date ≤ b.date) :=
  ⟨fun _ _ _ h1 h2 => le_trans h1 h2⟩

theorem sortByDate_perm (l : List Bar) : (sortByDate l).Perm l :=
  List.perm_insertionSort _ l

theorem mem_sortByDate {a : Bar} {l : List Bar} : a ∈ sortByDate l ↔ a ∈ l :=
  (sortByDate_perm l).mem_iff

theorem sortByDate_sorted (l : List Bar) :
    List.Pairwise (fun a b : Bar => a.date ≤ b.date) (sortByDate l) :=
  List.sorted_insertionSort _ l

theorem dedupKeepLast_subset {a : Bar} : ∀ {l : List Bar}, a ∈ dedupKeepLast l → a ∈ l := by
  intro l
  induction l with
  | nil => intro h; exact absurd h (by simp [dedupKeepLast])
  | cons b bs ih =>
    intro h
    rw [dedupKeepLast] at h
    split at h
    · exact List.mem_cons_of_mem b (ih h)
    · rcases List.mem_cons.mp h with h1 | h2
      · exact h1 ▸ List.mem_cons_self b bs
      · exact List.mem_cons_of_mem b (ih h2)

theorem dedupKeepLast_dates_distinct :
    ∀ l : List Bar, List.Pairwise (fun a b => a.date ≠ b.date) (dedupKeepLast l) := by
  intro l
  induction l with
  | nil => exact List.Pairwise.nil
  | cons b bs ih =>
    rw [dedupKeepLast]
    split
    · exact ih
    · rename_i hany
      refine List.pairwise_cons.mpr ⟨?_, ih⟩
      intro c hc heq
      exact hany (List.any_eq_true.mpr ⟨c, dedupKeepLast_subset hc, by simp [heq]⟩)

theorem dedupKeepLast_keep {a : Bar} :
    ∀ {l : List Bar}, a ∈ l → (∀ c ∈ l, c.date = a.date → c = a) → a ∈ dedupKeepLast l := by
  intro l
  induction l with
  | nil => intro h _; exact absurd h (by simp)
  | cons b bs ih =>
    intro hmem huniq
    rw [dedupKeepLast]
    rcases List.mem_cons.mp hmem with rfl | hbs
    · split
      · rename_i hany
        rcases List.any_eq_true.mp hany with ⟨c, hc, hcd⟩
        have hceq : c = a := huniq c (List.mem_cons_of_mem _ hc) (by simpa using hcd)
        subst hceq
        exact ih hc (fun d hd hdd => huniq d (List.mem_cons_of_mem _ hd) hdd)
      · exact List.mem_cons_self _ _
    · split
      · exact ih hbs (fun d hd hdd => huniq d (List.mem_cons_of_mem _ hd) hdd)
      · exact List.mem_cons_of_mem _ (ih hbs (fun d hd hdd => huniq d (List.mem_cons_of_mem _ hd) hdd))

theorem sortDedup_strict_ascending (l : List Bar) :
    List.Pairwise (fun a b => a.date < b.date) (sortByDate (dedupKeepLast l)) := by
  have hle := sortByDate_sorted (dedupKeepLast l)
  have hne : List.Pairwise (fun a b : Bar => a.date ≠ b.date) (sortByDate (dedupKeepLast l)) :=
    ((sortByDate_perm (dedupKeepLast l)).pairwise_iff
      (fun h => Ne.symm h)).mpr (dedupKeepLast_dates_distinct l)
  exact (hle.and hne).imp (fun h => lt_of_le_of_ne h.1 h.2)

theorem pairwise_dates_unique {l : List Bar} {b b2 : Bar}
    (hp : List.Pairwise (fun a b => a.date ≠ b.date) l)
    (hb : b ∈ l) (hb2 : b2 ∈ l) (heq : b2.date = b.date) : b2 = b := by
  by_contra hne
  exact (hp.forall (fun _ _ h => Ne.symm h) hb2 hb hne) heq

theorem merge_no_new (ex fetched : List Bar)
    (h : ∀ d ∈ fetched.map (fun b => b.date), d ∈ ex.map (fun b => b.date)) :
    mergeSeries (some ex) fetched = (ex, 0) := by
  unfold mergeSeries
  have hfil : (fetched.map (fun b => b.date)).filter
      (fun d => !(ex.map (fun b => b.date)).contains d) = [] := by
    rw [List.filter_eq_nil_iff]
    intro d hd
    have hc : (ex.map (fun b => b.date)).contains d = true := List.elem_iff.mpr (h d hd)
    simp only [hc, Bool.not_true, Bool.false_eq_true, not_false_eq_true]
  simp only [Option.getD_some]
  rw [hfil]
  simp

theorem mergeSeries_some_mem (ex fetched : List Bar) :
    ∀ b2 ∈ (mergeSeries (some ex) fetched).1,
      b2 ∈ ex ∨ (b2 ∈ fetched ∧ ¬ b2.date ∈ ex.map (fun c => c.date)) := by
  intro b2 hb2
  unfold mergeSeries at hb2
  simp only [Option.getD_some] at hb2
  split at hb2
  · exact Or.inl hb2
  · rw [mem_sortByDate] at hb2
    rcases List.mem_append.mp (dedupKeepLast_subset hb2) with hl | hr
    · exact Or.inl hl
    · rcases List.mem_filter.mp hr with ⟨hf, hpred⟩
      refine Or.inr ⟨hf, ?_⟩
      intro hmem
      have hco : (ex.map (fun c => c.date)).contains b2.date = true :=
        List.elem_iff.mpr hmem
      have hdd : b2.date ∈ ((fetched.map (fun b => b.date)).filter
          (fun d => !(ex.map (fun b => b.date)).contains d)).dedup :=
        List.elem_iff.mp hpred
      rcases List.mem_filter.mp (List.mem_dedup.mp hdd) with ⟨_, hnc⟩
      rw [hco] at hnc
      exact absurd hnc (by simp)

/-- C3: when the freshly fetched series contains no date absent from the
existing canonical series, the merger reports a merged count of 0 and
rewrites the existing series unchanged; consequently running the merge a
second time on its own output again yields the same output and count 0. -/
theorem merge_idempotent_no_new_dates (ex fetched : List Bar)
    (h : ∀ d ∈ fetched.map (fun b => b.date), d ∈ ex.map (fun b => b.date)) :
    mergeSeries (some ex) fetched = (ex, 0) ∧
    mergeSeries (some ((mergeSeries (some ex) fetched).1)) fetched = (ex, 0) := by
  have h1 := merge_no_new ex fetched h
  refine ⟨h1, ?_⟩
  rw [h1]
  exact h1

theorem merge_idempotent_no_new_dates_witness :
    mergeSeries (some [⟨1, none, none, none, some 100, none, "S"⟩])
      [⟨1, none, none, none, some 105, none, "S"⟩] =
      ([⟨1, none, none, none, some 100, none, "S"⟩], 0) :=
  (merge_idempotent_no_new_dates _ _ (by decide)).1

/-- C4: existing-wins — for a date D present in both series (even with
differing values), the merged series retains the existing row for D
unchanged, any merged row at date D is that existing row, and every merged
row either comes from the existing series or is a fetched row whose date was
not present in the existing series. -/
theorem merge_existing_wins (ex fetched : List Bar) (b : Bar)
    (hnd : List.Pairwise (fun a c => a.date ≠ c.date) ex) (hb : b ∈ ex) :
    b ∈ (mergeSeries (some ex) fetched).1 ∧
    (∀ b2 ∈ (mergeSeries (some ex) fetched).1, b2.date = b.date → b2 = b) ∧
    (∀ b2 ∈ (mergeSeries (some ex) fetched).1,
      b2 ∈ ex ∨ (b2 ∈ fetched ∧ ¬ b2.date ∈ ex.map (fun c => c.date))) := by
  refine ⟨?_, ?_, mergeSeries_some_mem ex fetched⟩
  · unfold mergeSeries
    simp only [Option.getD_some]
    split
    · exact hb
    · simp only []
      rw [mem_sortByDate]
      apply dedupKeepLast_keep (List.mem_append_left _ hb)
      intro c hc hcd
      rcases List.mem_append.mp hc with hcl | hcr
      · exact pairwise_dates_unique hnd hb hcl hcd
      · exfalso
        rcases List.mem_filter.mp hcr with ⟨_, hpred⟩
        have hdd : c.date ∈ ((fetched.map (fun x => x.date)).filter
            (fun d => !(ex.map (fun x => x.date)).contains d)).dedup :=
          List.elem_iff.mp hpred
        rcases List.mem_filter.mp (List.mem_dedup.mp hdd) with ⟨_, hnc⟩
        have hbmem : b.date ∈ ex.map (fun x => x.date) := List.mem_map.mpr ⟨b, hb, rfl⟩
        have hco : (ex.map (fun x => x.date)).contains c.date = true := by
          rw [hcd]
          exact List.elem_iff.mpr hbmem
        rw [hco] at hnc
        exact absurd hnc (by simp)
  · intro b2 hb2 hdate
    rcases mergeSeries_some_mem ex fetched b2 hb2 with h1 | h2
    · exact pairwise_dates_unique hnd hb h1 hdate
    · exfalso
      have : b2.date ∈ ex.map (fun c => c.date) := by
        rw [hdate]
        exact List.mem_map.mpr ⟨b, hb, rfl⟩
      exact h2.2 this

theorem merge_existing_wins_witness :
    (⟨1, none, none, none, some 100, none, "S"⟩ : Bar) ∈
      (mergeSeries (some [⟨1, none, none, none, some 100, none, "S"⟩])
        [⟨1, none, none, none, some 105, none, "S"⟩,
         ⟨2, none, none, none, some 7, none, "S"⟩]).1 :=
  (merge_existing_wins _ _ _ (by decide) (by decide)).1

theorem normalize_shape (t : RawTable) (hint : Option String) :
    normalize_existing_df t hint = none ∨
    ∃ l, normalize_existing_df t hint = some (sortByDate (dedupKeepLast l)) := by
  unfold normalize_existing_df
  simp only []
  split
  · exact Or.inl rfl
  · split
    · exact Or.inl rfl
    · split <;> split <;>
        first
          | exact Or.inl rfl
          | exact Or.inr ⟨_, rfl⟩

theorem dates_nodup_of_distinct {l : List Bar}
    (h : List.Pairwise (fun a b => a.date ≠ b.date) l) :
    (l.map (fun b => b.date)).Nodup :=
  List.pairwise_map.mpr h

/-- C8 counterexample: the claim fails as stated — a canonical series
produced by the merger's no-existing-series branch is not re-sorted, so with
an out-of-order fetch the output dates are not strictly ascending. -/
theorem merge_create_branch_not_sorted :
    ¬ List.Pairwise (fun a b : Bar => a.date < b.date)
      ((mergeSeries none [⟨2, none, none, none, none, none, ""⟩,
        ⟨1, none, none, none, none, none, ""⟩]).1) := by
  decide

/-- C8 amended: every canonical series produced by normalization has strictly
ascending (hence unique) dates; a merge with an existing strictly ascending
series again yields strictly ascending, unique dates; the
no-existing-series branch only deduplicates the fetch, so its output dates
are unique but ascending only when the fetch was already sorted. -/
theorem canonical_dates_sorted_unique :
    (∀ t hint bars, normalize_existing_df t hint = some bars →
      List.Pairwise (fun a b : Bar => a.date < b.date) bars) ∧
    (∀ ex fetched, List.Pairwise (fun a b : Bar => a.date < b.date) ex →
      List.Pairwise (fun a b : Bar => a.date < b.date) (mergeSeries (some ex) fetched).1 ∧
      ((mergeSeries (some ex) fetched).1.map (fun b => b.date)).Nodup) ∧
    (∀ fetched, ((mergeSeries none fetched).1.map (fun b => b.date)).Nodup) := by
  refine ⟨?_, ?_, ?_⟩
  · intro t hint bars h
    rcases normalize_shape t hint with hn | ⟨l, hs⟩
    · rw [hn] at h
      cases h
    · rw [hs] at h
      rw [Option.some_inj] at h
      rw [← h]
      exact sortDedup_strict_ascending _
  · intro ex fetched hex
    have hasc : List.Pairwise (fun a b : Bar => a.date < b.date)
        (mergeSeries (some ex) fetched).1 := by
      unfold mergeSeries
      simp only [Option.getD_some]
      split
      · exact hex
      · exact sortDedup_strict_ascending _
    exact ⟨hasc, dates_nodup_of_distinct (hasc.imp (fun h => ne_of_lt h))⟩
  · intro fetched
    exact dates_nodup_of_distinct (dedupKeepLast_dates_distinct fetched)

theorem canonical_dates_sorted_unique_witness :
    List.Pairwise (fun a b : Bar => a.date < b.date)
      (mergeSeries (some [⟨1, none, none, none, none, none, ""⟩])
        [⟨2, none, none, none, none, none, ""⟩]).1 :=
  (canonical_dates_sorted_unique.2.1 _ _ (by decide)).1

/-- C2: during header-contamination detection, a row among the first 6 rows
that holds a parseable date in a date-candidate column (non-NA) or in its
first cell is never flagged header-like and never dropped by the guard, no
matter how header-like its other cells look. -/
theorem header_guard_keeps_dated_rows (cols : List String) (hint : Option String)
    (rows : List (List Cell)) (i : ℕ) (h6 : i < 6) (hlen : i < rows.length)
    (hdate :
      (∃ c ∈ dateCandidates cols, ∃ cell, getCell cols (rows.getD i []) c = some cell ∧
        cell.isNA = false ∧ cell.dateLenient.isSome = true) ∨
      (∃ cell, (rows.getD i []).head? = some cell ∧ cell.dateLenient.isSome = true)) :
    is_header_like cols hint (dateCandidates cols) (rows.getD i []) = false ∧
    rows.getD i [] ∈ drop_header_like cols hint rows := by
  have hvalid : row_has_valid_date cols (dateCandidates cols) (rows.getD i []) = true := by
    unfold row_has_valid_date
    rcases hdate with ⟨c, hc, cell, hcell, hna, hdl⟩ | ⟨cell, hhead, hdl⟩
    · apply Bool.or_eq_true_iff.mpr
      left
      apply List.any_eq_true.mpr
      refine ⟨c, hc, ?_⟩
      rw [hcell]
      simp [hna, hdl]
    · apply Bool.or_eq_true_iff.mpr
      right
      rw [hhead]
      exact hdl
  have hflag : is_header_like cols hint (dateCandidates cols) (rows.getD i []) = false := by
    unfold is_header_like
    rw [hvalid]
    simp
  refine ⟨hflag, ?_⟩
  unfold drop_header_like
  apply List.mem_append_left
  apply List.mem_filter.mpr
  have hlt : i < (rows.take 6).length := by
    rw [List.length_take]
    exact lt_min h6 hlen
  have hg : rows.getD i [] = (rows.take 6)[i] := by
    rw [List.getD_eq_getElem _ _ hlen]
    exact (List.getElem_take rows).symm
  refine ⟨?_, ?_⟩
  · rw [hg]
    exact List.getElem_mem hlt
  · rw [hflag]
    rfl

theorem header_guard_keeps_dated_rows_witness :
    is_header_like ["Date", "A"] (some "TCK") (dateCandidates ["Date", "A"])
      ([[⟨false, "2024-01-01", some 738886, some 738886, none⟩,
         ⟨false, "TCK", none, none, none⟩]].getD 0 []) = false ∧
    [[⟨false, "2024-01-01", some 738886, some 738886, none⟩,
      ⟨false, "TCK", none, none, none⟩]].getD 0 [] ∈
      drop_header_like ["Date", "A"] (some "TCK")
        [[⟨false, "2024-01-01", some 738886, some 738886, none⟩,
          ⟨false, "TCK", none, none, none⟩]] :=
  header_guard_keeps_dated_rows ["Date", "A"] (some "TCK")
    [[⟨false, "2024-01-01", some 738886, some 738886, none⟩,
      ⟨false, "TCK", none, none, none⟩]] 0 (by decide) (by decide)
    (Or.inl ⟨"Date", by decide,
      ⟨false, "2024-01-01", some 738886, some 738886, none⟩, by decide, rfl, rfl⟩)

/-- C6: the lenient date-parse fallback in `normalize_existing_df` is dead
code — line 209 overwrites the `Date` column with the strict-parse result
before line 211 re-parses it, so when strict parsing yields zero valid dates
the retry re-parses an all-`NaT` column and every row is dropped.  At this
input, whose single row's date is parseable only in a non-ISO format, the
function returns `None` instead of keeping the leniently parsed row as the
spec describes. -/
theorem lenient_fallback_dead_code :
    normalize_existing_df
      ⟨["Date", "Close"],
        [[⟨false, "15/01/2024", none, some 20240115, none⟩,
          ⟨false, "1.5", none, none, some (3/2)⟩]]⟩ none = none := by
  decide
